import Mathlib

/-!
Verification of the operating-room waiting-time simulation
(`or_wait_times.py`, function `model_ors`).

The simulation is embedded shallowly: the Poisson / log-normal draws of the
source are replaced by explicit oracles (`arrivals : Nat → Nat → Nat` giving
the number of arrivals per tick and class, `surgeries : Nat → Nat → Nat`
giving the surgery duration drawn when a patient of a class is admitted at a
tick), so every run is a deterministic function of the configuration and the
oracles.  Time is in minutes (`Nat`); `night_length` keeps the source's
numeric (possibly fractional) type as `ℚ`.
-/

namespace ORWait

/-- Number of minutes in a day (`day_to_min` in the source). -/
def dayToMin : Nat := 1440

/-- Number of minutes in an hour (`hour_to_min` in the source). -/
def hourToMin : Nat := 60

/-- One row of the simulation's `results` list: class index, arrival time
relative to the warm-up end, day/night tag, waiting time, surgery time. -/
structure OutcomeRecord where
  cls : Nat
  arrival : Nat
  dayTag : Bool
  wait : Nat
  surgery : Nat
deriving DecidableEq

/-- Configuration reaching the simulation loop of `model_ors` (the values in
scope once typechecking has passed).  `minDayonlyClass` is carried because the
source accepts and documents the parameter; the loop of the source never
reads it. -/
structure SimConfig where
  nDayOprooms : Nat
  nNightOprooms : Nat
  minDayonlyClass : Nat
  nightLength : ℚ
  convergeTime : Nat
  experimentLength : Nat
  cleaningTime : Nat
  nClasses : Nat
deriving DecidableEq

/-- The day/night test of the source: `time % day_to_min > night_length *
hour_to_min` (function `is_day` of the second script; the same expression is
inlined at lines 161 and 181 of the first script). -/
def isDay (nightLength : ℚ) (time : Nat) : Bool :=
  decide (((time % dayToMin : Nat) : ℚ) > nightLength * (hourToMin : ℚ))

/-- Capacity for the current tick (lines 161-164 of the source). -/
def nOprooms (cfg : SimConfig) (time : Nat) : Nat :=
  if isDay cfg.nightLength time then cfg.nDayOprooms else cfg.nNightOprooms

/-- Mutable state of the simulation loop. -/
structure SimState where
  operatingRooms : List Nat
  queues : List (List Nat)
  utilizationFrac : List Nat
  results : List OutcomeRecord
deriving DecidableEq

/-- Initial state (lines 140-143 of the source). -/
def initState (cfg : SimConfig) : SimState :=
  { operatingRooms := []
    queues := List.replicate cfg.nClasses []
    utilizationFrac := List.replicate (cfg.nDayOprooms + 1) 0
    results := [] }

/-- Python's `list.remove(v)`: drop the first element equal to `v` (line 190
of the source removes `queues[j][0]` by value). -/
def removeFirst (v : Nat) : List Nat → List Nat
  | [] => []
  | x :: xs => if x = v then xs else x :: removeFirst v xs

/-- Enqueue this tick's arrivals (lines 148-154 of the source): class `j0 + i`
appends its timestamp `arr (j0 + i)` times to its queue. -/
def enqueueAux (arr : Nat → Nat) (time : Nat) : Nat → List (List Nat) → List (List Nat)
  | _, [] => []
  | j0, q :: rest => (q ++ List.replicate (arr j0) time) :: enqueueAux arr time (j0 + 1) rest

/-- Body of the admission loop for one class `j` (lines 166-197 of the
source): if a room is free and the queue non-empty, admit the queue head,
emitting a result row when the head's arrival time is past `converge_time`,
with the day/night tag computed from the arrival time. -/
def processClass (cfg : SimConfig) (surgeries : Nat → Nat → Nat) (time n : Nat)
    (s : SimState) (j : Nat) : SimState :=
  let q := s.queues.getD j []
  if s.operatingRooms.length < n ∧ q ≠ [] then
    let arrivalTime := q.headD 0
    let waitTime := time - arrivalTime
    let surgeryTime := surgeries time j
    let results1 :=
      if cfg.convergeTime < arrivalTime then
        s.results ++ [{ cls := j
                        arrival := arrivalTime - cfg.convergeTime
                        dayTag := isDay cfg.nightLength arrivalTime
                        wait := waitTime
                        surgery := surgeryTime }]
      else s.results
    { operatingRooms := s.operatingRooms ++ [time + surgeryTime + cfg.cleaningTime]
      queues := s.queues.set j (removeFirst arrivalTime q)
      utilizationFrac := s.utilizationFrac
      results := results1 }
  else s

/-- The admission loop over a list of class indices (`for j in
range(n_classes)` of the source, with the capacity `n` fixed for the tick). -/
def admitClasses (cfg : SimConfig) (surgeries : Nat → Nat → Nat) (time n : Nat)
    (js : List Nat) (s : SimState) : SimState :=
  js.foldl (processClass cfg surgeries time n) s

/-- Utilization sampling (line 200 of the source):
`utilization_frac[len(operating_rooms)] += 1`. -/
def bumpUtilization (s : SimState) : SimState :=
  let idx := s.operatingRooms.length
  { s with utilizationFrac := s.utilizationFrac.set idx (s.utilizationFrac.getD idx 0 + 1) }

/-- One tick of the loop up to (and excluding) the utilization sampling:
enqueue arrivals, release finished rooms, resolve capacity, run the
admission loop (lines 146-197 of the source). -/
def stepPre (cfg : SimConfig) (arrivals surgeries : Nat → Nat → Nat) (time : Nat)
    (s : SimState) : SimState :=
  let s1 : SimState := { s with queues := enqueueAux (arrivals time) time 0 s.queues }
  let s2 : SimState := { s1 with operatingRooms := s1.operatingRooms.filter (fun x => x ≠ time) }
  admitClasses cfg surgeries time (nOprooms cfg time) (List.range cfg.nClasses) s2

/-- One full tick (lines 146-200 of the source): the utilization histogram is
bumped only when `time > converge_time`. -/
def step (cfg : SimConfig) (arrivals surgeries : Nat → Nat → Nat) (time : Nat)
    (s : SimState) : SimState :=
  let s3 := stepPre cfg arrivals surgeries time s
  if cfg.convergeTime < time then bumpUtilization s3 else s3

/-- State after the first `t` ticks (ticks `0, 1, ..., t-1` have run). -/
def simAt (cfg : SimConfig) (arrivals surgeries : Nat → Nat → Nat) : Nat → SimState
  | 0 => initState cfg
  | t + 1 => step cfg arrivals surgeries t (simAt cfg arrivals surgeries t)

/-- The full run: `for time in range(int(experiment_length + converge_time))`
(line 146 of the source). -/
def runSim (cfg : SimConfig) (arrivals surgeries : Nat → Nat → Nat) : SimState :=
  simAt cfg arrivals surgeries (cfg.experimentLength + cfg.convergeTime)

/-- The utilization table built at lines 202-205 of the source: each bucket is
divided by `experiment_length - converge_time` (the string label of each row
is dropped; the numeric fraction is kept exactly, as a rational). -/
def utilizationResults (cfg : SimConfig) (hist : List Nat) : List ℚ :=
  hist.map (fun e => (e : ℚ) / ((cfg.experimentLength : ℚ) - (cfg.convergeTime : ℚ)))

/-- Invariant of the simulation loop: `s` is the state before tick `time`
runs.  The histogram has a fixed size, its buckets sum to the number of ticks
sampled so far, occupancy never exceeds the day capacity, and queues hold
sorted timestamps of past ticks. -/
structure SimInv (cfg : SimConfig) (time : Nat) (s : SimState) : Prop where
  rooms_le : s.operatingRooms.length ≤ cfg.nDayOprooms
  hist_len : s.utilizationFrac.length = cfg.nDayOprooms + 1
  hist_sum : s.utilizationFrac.sum = time - (cfg.convergeTime + 1)
  queues_len : s.queues.length = cfg.nClasses
  queues_sorted : ∀ q ∈ s.queues, List.Sorted (· ≤ ·) q
  queues_bounded : ∀ q ∈ s.queues, ∀ x ∈ q, x < time


/-!
The typechecking block of `model_ors` (lines 87-131 of the source).  Python's
dynamic `TypeError` branches for values of the wrong type cannot arise in the
typed embedding; the value-range and length checks are embedded in the
source's order, with Python numbers as `ℚ` and integer arguments as `ℤ`.
-/

/-- Errors raised by the typechecking block (the Python error messages are
dropped; only the error kind is kept). -/
inductive PyError where
  | typeError
  | valueError
deriving DecidableEq

/-- Parameters of `model_ors` as the caller passes them. -/
structure ModelParams where
  nDayOprooms : Int
  distributionParameters : List (List ℚ)
  nNightOprooms : Option Int
  minDayonlyClass : Int
  nightLength : ℚ
  convergeTime : ℚ
  experimentLength : ℚ
  cleaningTime : ℚ

/-- Line 76-77 of the source: `n_night_oprooms` defaults to `n_day_oprooms`. -/
def nightRooms (p : ModelParams) : Int :=
  p.nNightOprooms.getD p.nDayOprooms

/-- Items of one distribution triple (lines 100-106): the first negative item
raises a `ValueError`. -/
def checkItems : List ℚ → Except PyError Unit
  | [] => Except.ok ()
  | x :: xs =>
    if x < 0 then Except.error PyError.valueError
    else checkItems xs

/-- The loop over `distribution_parameters` (lines 93-106): each element must
have exactly three components, all non-negative. -/
def checkDistParams : List (List ℚ) → Except PyError Unit
  | [] => Except.ok ()
  | e :: rest =>
    if e.length ≠ 3 then
      Except.error PyError.valueError
    else
      match checkItems e with
      | Except.error err => Except.error err
      | Except.ok _ => checkDistParams rest

/-- The whole typechecking block, in source order (lines 87-131). -/
def validate (p : ModelParams) : Except PyError Unit :=
  if p.nDayOprooms ≤ 0 then
    Except.error PyError.valueError
  else
    match checkDistParams p.distributionParameters with
    | Except.error err => Except.error err
    | Except.ok _ =>
      if nightRooms p > p.nDayOprooms then
        Except.error PyError.valueError
      else if nightRooms p < 0 then
        Except.error PyError.valueError
      else if p.nightLength < 0 then
        Except.error PyError.valueError
      else if p.convergeTime < 0 then
        Except.error PyError.valueError
      else if p.experimentLength < 0 then
        Except.error PyError.valueError
      else if p.cleaningTime < 0 then
        Except.error PyError.valueError
      else Except.ok ()

/-- Distribution parameters in range: triples of non-negative components. -/
def DistOk (L : List (List ℚ)) : Prop :=
  ∀ e ∈ L, e.length = 3 ∧ ∀ x ∈ e, 0 ≤ x

/-- A conforming configuration: every value-range condition the typechecking
block tests. -/
def Conforming (p : ModelParams) : Prop :=
  0 < p.nDayOprooms
  ∧ DistOk p.distributionParameters
  ∧ nightRooms p ≤ p.nDayOprooms
  ∧ 0 ≤ nightRooms p
  ∧ 0 ≤ p.nightLength
  ∧ 0 ≤ p.convergeTime
  ∧ 0 ≤ p.experimentLength
  ∧ 0 ≤ p.cleaningTime

/-- The validated parameters, as the simulation loop consumes them.  The
timing parameters are floored to whole minutes: the source steps
`range(int(experiment_length + converge_time))`, which agrees with this for
whole-number inputs (all defaults are whole numbers). -/
def toSimConfig (p : ModelParams) : SimConfig :=
  { nDayOprooms := p.nDayOprooms.toNat
    nNightOprooms := (nightRooms p).toNat
    minDayonlyClass := p.minDayonlyClass.toNat
    nightLength := p.nightLength
    convergeTime := Int.toNat ⌊p.convergeTime⌋
    experimentLength := Int.toNat ⌊p.experimentLength⌋
    cleaningTime := Int.toNat ⌊p.cleaningTime⌋
    nClasses := p.distributionParameters.length }

/-- `model_ors`: typecheck, then run the loop and build the outputs (lines
87-207 of the source). -/
def model_ors (p : ModelParams) (arrivals surgeries : Nat → Nat → Nat) :
    Except PyError (List OutcomeRecord × List ℚ) :=
  match validate p with
  | Except.error e => Except.error e
  | Except.ok _ =>
    let cfg := toSimConfig p
    let s := runSim cfg arrivals surgeries
    Except.ok (s.results, utilizationResults cfg s.utilizationFrac)

/-!
Concrete configurations and oracles used to instantiate the theorems below.
Field order of `SimConfig`: day rooms, night rooms, `min_dayonly_class`,
`night_length` (hours), `converge_time`, `experiment_length`,
`cleaning_time`, number of classes.
-/

/-- Oracle with no arrivals at all. -/
def arrNone : Nat → Nat → Nat := fun _ _ => 0

/-- Oracle with zero surgery durations. -/
def surZero : Nat → Nat → Nat := fun _ _ => 0

/-- Configuration in which every class is day-only (`min_dayonly_class = 0`). -/
def cfgC1 : SimConfig := ⟨1, 1, 0, 8, 0, 2, 60, 1⟩

/-- One patient of class 0 arrives at tick 0 (a night tick for
`night_length = 8`). -/
def arrC1 : Nat → Nat → Nat := fun t _ => if t = 0 then 1 else 0

/-- Five-minute surgeries. -/
def surC1 : Nat → Nat → Nat := fun _ _ => 5

/-- Day capacity 1, night capacity 0, night window of length 0 hours (so only
minute 0 of each day is night), long warm-up. -/
def cfgC2 : SimConfig := ⟨1, 0, 3, 0, 2000000, 100, 0, 1⟩

/-- One patient arrives at tick 1, the first day tick of `cfgC2`. -/
def arrC2 : Nat → Nat → Nat := fun t _ => if t = 1 then 1 else 0

/-- A surgery long enough to span the whole first day. -/
def surC2 : Nat → Nat → Nat := fun _ _ => 20000

/-- The state of the `cfgC2` run from tick 2 on: the single patient admitted
at tick 1 occupies the room until minute 20001. -/
def sFixC2 : SimState := ⟨[20001], [[]], [0, 0], []⟩

/-- Warm-up of 2 ticks and experiment length of 4 ticks. -/
def cfgC3 : SimConfig := ⟨1, 1, 3, 8, 2, 4, 60, 1⟩

/-- Two day rooms, one night room, 8-hour nights. -/
def cfgC4 : SimConfig := ⟨2, 1, 3, 8, 0, 10, 60, 1⟩

/-- Warm-up threshold 100, used to exercise the record-emission branch. -/
def cfgC7 : SimConfig := ⟨1, 1, 3, 8, 100, 10, 60, 1⟩

/-- A mid-tick state with one queued arrival at minute 400 (a night minute)
and no occupied room. -/
def sC7 : SimState := ⟨[], [[400]], [0, 0], []⟩

/-- Seven-minute surgeries. -/
def surC7 : Nat → Nat → Nat := fun _ _ => 7

/-- Night capacity 0 and a 24-hour night window: nothing is ever admitted, so
queues only grow. -/
def cfgC8 : SimConfig := ⟨1, 0, 3, 24, 0, 10, 60, 1⟩

/-- One arrival at tick 0 and one at tick 1. -/
def arrC8 : Nat → Nat → Nat := fun t _ => if t ≤ 1 then 1 else 0
/-!
Basic lemmas about the list operations of the embedding.
-/

theorem removeFirst_headD (l : List Nat) (h : l ≠ []) :
    removeFirst (l.headD 0) l = l.tail := by
  cases l with
  | nil => exact absurd rfl h
  | cons x xs => simp [removeFirst]

theorem getD_eq_default_of_le (l : List α) (i : Nat) (d : α) (h : l.length ≤ i) :
    l.getD i d = d := by
  induction l generalizing i with
  | nil => simp [List.getD]
  | cons x xs ih =>
    cases i with
    | zero => simp at h
    | succ n => simpa using ih n (by simpa using h)

theorem lt_length_of_getD_ne_default (l : List α) (i : Nat) (d : α)
    (h : l.getD i d ≠ d) : i < l.length := by
  by_contra hc
  exact h (getD_eq_default_of_le l i d (le_of_not_lt hc))

theorem getD_set_self (l : List α) (i : Nat) (v d : α) (h : i < l.length) :
    (l.set i v).getD i d = v := by
  induction l generalizing i with
  | nil => simp at h
  | cons x xs ih =>
    cases i with
    | zero => simp
    | succ n => simpa using ih n (by simpa using h)

theorem getD_set_ne (l : List α) (i j : Nat) (v d : α) (h : i ≠ j) :
    (l.set i v).getD j d = l.getD j d := by
  induction l generalizing i j with
  | nil => simp
  | cons x xs ih =>
    cases i with
    | zero =>
      cases j with
      | zero => exact absurd rfl h
      | succ m => simp
    | succ n =>
      cases j with
      | zero => simp
      | succ m => simpa using ih n m (fun he => h (by rw [he]))

theorem getD_mem_of_lt (l : List α) (i : Nat) (d : α) (h : i < l.length) :
    l.getD i d ∈ l := by
  induction l generalizing i with
  | nil => simp at h
  | cons x xs ih =>
    cases i with
    | zero => simp
    | succ n => simpa using Or.inr (ih n (by simpa using h))

theorem mem_set_or (l : List α) (i : Nat) (v a : α) (h : a ∈ l.set i v) :
    a ∈ l ∨ a = v := by
  induction l generalizing i with
  | nil => simp at h
  | cons x xs ih =>
    cases i with
    | zero =>
      rcases (by simpa using h : a = v ∨ a ∈ xs) with h1 | h1
      · exact Or.inr h1
      · exact Or.inl (by simp [h1])
    | succ n =>
      rcases (by simpa using h : a = x ∨ a ∈ xs.set n v) with h1 | h1
      · exact Or.inl (by simp [h1])
      · rcases ih n h1 with h2 | h2
        · exact Or.inl (by simp [h2])
        · exact Or.inr h2

theorem sum_set_getD_succ (l : List Nat) (i : Nat) (h : i < l.length) :
    (l.set i (l.getD i 0 + 1)).sum = l.sum + 1 := by
  induction l generalizing i with
  | nil => simp at h
  | cons x xs ih =>
    cases i with
    | zero => simp [Nat.add_assoc, Nat.add_comm, Nat.add_left_comm]
    | succ n =>
      have h2 := ih n (by simpa using h)
      show (x :: xs.set n (xs.getD n 0 + 1)).sum = (x :: xs).sum + 1
      rw [List.sum_cons, List.sum_cons, h2]
      omega

theorem sorted_replicate (k a : Nat) : List.Sorted (· ≤ ·) (List.replicate k a) := by
  induction k with
  | zero => simp
  | succ n ih =>
    rw [List.replicate_succ]
    exact List.sorted_cons.mpr ⟨fun b hb => le_of_eq (List.eq_of_mem_replicate hb).symm, ih⟩

theorem sorted_append_replicate (q : List Nat) (k a : Nat)
    (hs : List.Sorted (· ≤ ·) q) (hb : ∀ x ∈ q, x ≤ a) :
    List.Sorted (· ≤ ·) (q ++ List.replicate k a) := by
  induction q with
  | nil => simpa using sorted_replicate k a
  | cons x xs ih =>
    rw [List.cons_append]
    refine List.sorted_cons.mpr ⟨?_, ?_⟩
    · intro b hbmem
      rcases List.mem_append.mp hbmem with h1 | h1
      · exact (List.sorted_cons.mp hs).1 b h1
      · rw [List.eq_of_mem_replicate h1]
        exact hb x (by simp)
    · exact ih (List.sorted_cons.mp hs).2 (fun x hx => hb x (by simp [hx]))

theorem sorted_tail (q : List Nat) (hs : List.Sorted (· ≤ ·) q) :
    List.Sorted (· ≤ ·) q.tail := by
  cases q with
  | nil => exact List.sorted_nil
  | cons x xs => exact (List.sorted_cons.mp hs).2

theorem tail_ne_self (q : List Nat) (h : q ≠ []) : q.tail ≠ q := by
  cases q with
  | nil => exact absurd rfl h
  | cons x xs =>
    intro hc
    have := congrArg List.length hc
    simp at this

/-!
Lemmas about one class's admission step and about the admission loop.
-/

theorem processClass_utilizationFrac (cfg : SimConfig) (sur : Nat → Nat → Nat)
    (time n : Nat) (s : SimState) (j : Nat) :
    (processClass cfg sur time n s j).utilizationFrac = s.utilizationFrac := by
  simp only [processClass]
  split <;> rfl

theorem processClass_results_mono (cfg : SimConfig) (sur : Nat → Nat → Nat)
    (time n : Nat) (s : SimState) (j : Nat) :
    ∃ new, (processClass cfg sur time n s j).results = s.results ++ new := by
  simp only [processClass]
  split
  · split
    · exact ⟨_, rfl⟩
    · exact ⟨[], (List.append_nil _).symm⟩
  · exact ⟨[], (List.append_nil _).symm⟩

theorem processClass_queues_length (cfg : SimConfig) (sur : Nat → Nat → Nat)
    (time n : Nat) (s : SimState) (j : Nat) :
    (processClass cfg sur time n s j).queues.length = s.queues.length := by
  simp only [processClass]
  split
  · simp
  · rfl

theorem processClass_queue_ne (cfg : SimConfig) (sur : Nat → Nat → Nat)
    (time n : Nat) (s : SimState) (i j : Nat) (h : j ≠ i) :
    (processClass cfg sur time n s j).queues.getD i [] = s.queues.getD i [] := by
  simp only [processClass]
  split
  · exact getD_set_ne _ _ _ _ _ h
  · rfl

theorem processClass_rooms_le (cfg : SimConfig) (sur : Nat → Nat → Nat)
    (time n : Nat) (s : SimState) (j : Nat) (m : Nat) (hn : n ≤ m)
    (h : s.operatingRooms.length ≤ m) :
    (processClass cfg sur time n s j).operatingRooms.length ≤ m := by
  simp only [processClass]
  split
  · next hc => simpa using Nat.le_trans (Nat.succ_le_of_lt hc.1) hn
  · exact h

theorem processClass_queue_self (cfg : SimConfig) (sur : Nat → Nat → Nat)
    (time n : Nat) (s : SimState) (j : Nat)
    (hne : s.queues.getD j [] ≠ []) (hfree : s.operatingRooms.length < n) :
    (processClass cfg sur time n s j).queues.getD j [] = (s.queues.getD j []).tail := by
  have hlt : j < s.queues.length := lt_length_of_getD_ne_default _ _ _ hne
  simp only [processClass]
  rw [if_pos ⟨hfree, hne⟩]
  show (s.queues.set j (removeFirst ((s.queues.getD j []).headD 0) (s.queues.getD j []))).getD j [] = _
  rw [removeFirst_headD _ hne, getD_set_self _ _ _ _ hlt]

theorem processClass_queue_change_iff (cfg : SimConfig) (sur : Nat → Nat → Nat)
    (time n : Nat) (s : SimState) (j : Nat) :
    (processClass cfg sur time n s j).queues.getD j [] ≠ s.queues.getD j []
      ↔ s.queues.getD j [] ≠ [] ∧ s.operatingRooms.length < n := by
  constructor
  · intro hch
    by_cases hc : s.operatingRooms.length < n ∧ s.queues.getD j [] ≠ []
    · exact ⟨hc.2, hc.1⟩
    · exfalso
      apply hch
      simp only [processClass]
      rw [if_neg hc]
  · intro hc
    rw [processClass_queue_self cfg sur time n s j hc.1 hc.2]
    exact fun he => tail_ne_self _ hc.1 he

theorem processClass_queues_pred (cfg : SimConfig) (sur : Nat → Nat → Nat)
    (time n : Nat) (s : SimState) (j : Nat) (P : List Nat → Prop)
    (htail : ∀ q, P q → P q.tail) (h : ∀ q ∈ s.queues, P q) :
    ∀ q ∈ (processClass cfg sur time n s j).queues, P q := by
  intro q hq
  by_cases hc : s.operatingRooms.length < n ∧ s.queues.getD j [] ≠ []
  · have hset : (processClass cfg sur time n s j).queues
        = s.queues.set j ((s.queues.getD j []).tail) := by
      simp only [processClass]
      rw [if_pos hc]
      show s.queues.set j (removeFirst ((s.queues.getD j []).headD 0) (s.queues.getD j [])) = _
      rw [removeFirst_headD _ hc.2]
    rw [hset] at hq
    rcases mem_set_or _ _ _ _ hq with h1 | h1
    · exact h q h1
    · subst h1
      have hlt : j < s.queues.length := lt_length_of_getD_ne_default _ _ _ hc.2
      exact htail _ (h _ (getD_mem_of_lt _ _ _ hlt))
  · have : processClass cfg sur time n s j = s := by
      simp only [processClass]
      rw [if_neg hc]
    rw [this] at hq
    exact h q hq

theorem admitClasses_cons (cfg : SimConfig) (sur : Nat → Nat → Nat) (time n : Nat)
    (i : Nat) (js : List Nat) (s : SimState) :
    admitClasses cfg sur time n (i :: js) s
      = admitClasses cfg sur time n js (processClass cfg sur time n s i) := rfl

theorem admitClasses_append (cfg : SimConfig) (sur : Nat → Nat → Nat) (time n : Nat)
    (js1 js2 : List Nat) (s : SimState) :
    admitClasses cfg sur time n (js1 ++ js2) s
      = admitClasses cfg sur time n js2 (admitClasses cfg sur time n js1 s) := by
  simp [admitClasses, List.foldl_append]

theorem admitClasses_utilizationFrac (cfg : SimConfig) (sur : Nat → Nat → Nat)
    (time n : Nat) (js : List Nat) (s : SimState) :
    (admitClasses cfg sur time n js s).utilizationFrac = s.utilizationFrac := by
  induction js generalizing s with
  | nil => rfl
  | cons i rest ih =>
    rw [admitClasses_cons, ih, processClass_utilizationFrac]

theorem admitClasses_queues_length (cfg : SimConfig) (sur : Nat → Nat → Nat)
    (time n : Nat) (js : List Nat) (s : SimState) :
    (admitClasses cfg sur time n js s).queues.length = s.queues.length := by
  induction js generalizing s with
  | nil => rfl
  | cons i rest ih =>
    rw [admitClasses_cons, ih, processClass_queues_length]

theorem admitClasses_queue_notMem (cfg : SimConfig) (sur : Nat → Nat → Nat)
    (time n : Nat) (js : List Nat) (s : SimState) (j : Nat) (h : j ∉ js) :
    (admitClasses cfg sur time n js s).queues.getD j [] = s.queues.getD j [] := by
  induction js generalizing s with
  | nil => rfl
  | cons i rest ih =>
    rw [admitClasses_cons, ih _ (fun hm => h (by simp [hm])),
      processClass_queue_ne _ _ _ _ _ _ _ (fun he => h (by simp [he]))]

theorem admitClasses_rooms_le (cfg : SimConfig) (sur : Nat → Nat → Nat)
    (time n : Nat) (js : List Nat) (s : SimState) (m : Nat) (hn : n ≤ m)
    (h : s.operatingRooms.length ≤ m) :
    (admitClasses cfg sur time n js s).operatingRooms.length ≤ m := by
  induction js generalizing s with
  | nil => exact h
  | cons i rest ih =>
    rw [admitClasses_cons]
    exact ih _ (processClass_rooms_le cfg sur time n s i m hn h)

theorem admitClasses_queues_pred (cfg : SimConfig) (sur : Nat → Nat → Nat)
    (time n : Nat) (js : List Nat) (s : SimState) (P : List Nat → Prop)
    (htail : ∀ q, P q → P q.tail) (h : ∀ q ∈ s.queues, P q) :
    ∀ q ∈ (admitClasses cfg sur time n js s).queues, P q := by
  induction js generalizing s with
  | nil => exact h
  | cons i rest ih =>
    rw [admitClasses_cons]
    exact ih _ (processClass_queues_pred cfg sur time n s i P htail h)

theorem admitClasses_queue_len_ge (cfg : SimConfig) (sur : Nat → Nat → Nat)
    (time n : Nat) (js : List Nat) (s : SimState) (j : Nat)
    (hcount : js.count j ≤ 1) :
    (s.queues.getD j []).length
      ≤ ((admitClasses cfg sur time n js s).queues.getD j []).length + 1 := by
  induction js generalizing s with
  | nil => exact Nat.le_succ_of_le (Nat.le_refl _)
  | cons i rest ih =>
    rw [admitClasses_cons]
    by_cases hij : i = j
    · subst hij
      have hz : rest.count i = 0 := by
        have := hcount
        rw [List.count_cons_self] at this
        omega
      have hnm : i ∉ rest := by
        intro hm
        have := List.count_pos_iff.mpr hm
        omega
      rw [admitClasses_queue_notMem cfg sur time n rest _ i hnm]
      by_cases hc : s.operatingRooms.length < n ∧ s.queues.getD i [] ≠ []
      · rw [processClass_queue_self cfg sur time n s i hc.2 hc.1]
        cases hq : s.queues.getD i [] with
        | nil => simp
        | cons a tl => simp [hq]
      · have : processClass cfg sur time n s i = s := by
          simp only [processClass]
          rw [if_neg hc]
        rw [this]
        exact Nat.le_succ_of_le (Nat.le_refl _)
    · have hcnt : rest.count j ≤ 1 := by
        have := hcount
        rw [List.count_cons_of_ne (fun he => hij he.symm)] at this
        exact this
      have := ih (processClass cfg sur time n s i) hcnt
      rwa [processClass_queue_ne cfg sur time n s j i hij] at this

/-!
Invariant carried through the run.
-/

theorem nOprooms_le_day (cfg : SimConfig) (time : Nat)
    (hcap : cfg.nNightOprooms ≤ cfg.nDayOprooms) :
    nOprooms cfg time ≤ cfg.nDayOprooms := by
  unfold nOprooms
  split
  · exact Nat.le_refl _
  · exact hcap

theorem enqueueAux_length (arr : Nat → Nat) (time : Nat) (j0 : Nat) (qs : List (List Nat)) :
    (enqueueAux arr time j0 qs).length = qs.length := by
  induction qs generalizing j0 with
  | nil => rfl
  | cons q rest ih => simp [enqueueAux, ih]

theorem enqueueAux_mem (arr : Nat → Nat) (time : Nat) (j0 : Nat) (qs : List (List Nat))
    (q1 : List Nat) (h : q1 ∈ enqueueAux arr time j0 qs) :
    ∃ q ∈ qs, ∃ k, q1 = q ++ List.replicate k time := by
  induction qs generalizing j0 with
  | nil => simp [enqueueAux] at h
  | cons q rest ih =>
    rcases (by simpa [enqueueAux] using h :
        q1 = q ++ List.replicate (arr j0) time ∨ q1 ∈ enqueueAux arr time (j0 + 1) rest) with h1 | h1
    · exact ⟨q, by simp, arr j0, h1⟩
    · rcases ih (j0 + 1) h1 with ⟨q2, hq2, k, hk⟩
      exact ⟨q2, by simp [hq2], k, hk⟩

theorem stepPre_utilizationFrac (cfg : SimConfig) (arr sur : Nat → Nat → Nat)
    (time : Nat) (s : SimState) :
    (stepPre cfg arr sur time s).utilizationFrac = s.utilizationFrac := by
  unfold stepPre
  rw [admitClasses_utilizationFrac]

theorem stepPre_rooms_le (cfg : SimConfig) (arr sur : Nat → Nat → Nat)
    (time : Nat) (s : SimState) (hcap : cfg.nNightOprooms ≤ cfg.nDayOprooms)
    (h : s.operatingRooms.length ≤ cfg.nDayOprooms) :
    (stepPre cfg arr sur time s).operatingRooms.length ≤ cfg.nDayOprooms := by
  unfold stepPre
  refine admitClasses_rooms_le cfg sur time _ _ _ _ (nOprooms_le_day cfg time hcap) ?_
  exact Nat.le_trans (List.length_filter_le _ _) h

theorem stepPre_queues_length (cfg : SimConfig) (arr sur : Nat → Nat → Nat)
    (time : Nat) (s : SimState) :
    (stepPre cfg arr sur time s).queues.length = s.queues.length := by
  unfold stepPre
  rw [admitClasses_queues_length]
  exact enqueueAux_length _ _ _ _

theorem stepPre_queues_inv (cfg : SimConfig) (arr sur : Nat → Nat → Nat)
    (time : Nat) (s : SimState)
    (hs : ∀ q ∈ s.queues, List.Sorted (· ≤ ·) q)
    (hb : ∀ q ∈ s.queues, ∀ x ∈ q, x < time) :
    ∀ q ∈ (stepPre cfg arr sur time s).queues,
      List.Sorted (· ≤ ·) q ∧ ∀ x ∈ q, x < time + 1 := by
  unfold stepPre
  refine admitClasses_queues_pred cfg sur time _ _ _
    (fun q => List.Sorted (· ≤ ·) q ∧ ∀ x ∈ q, x < time + 1) ?_ ?_
  · intro q hq
    exact ⟨sorted_tail q hq.1, fun x hx => hq.2 x (List.mem_of_mem_tail hx)⟩
  · intro q hq
    rcases enqueueAux_mem (arr time) time 0 s.queues q hq with ⟨q0, hq0, k, hk⟩
    subst hk
    constructor
    · exact sorted_append_replicate q0 k time (hs q0 hq0)
        (fun x hx => Nat.le_of_lt (hb q0 hq0 x hx))
    · intro x hx
      rcases List.mem_append.mp hx with h1 | h1
      · exact Nat.lt_succ_of_lt (hb q0 hq0 x h1)
      · rw [List.eq_of_mem_replicate h1]
        exact Nat.lt_succ_self _

theorem inv_step (cfg : SimConfig) (arr sur : Nat → Nat → Nat) (time : Nat)
    (s : SimState) (hcap : cfg.nNightOprooms ≤ cfg.nDayOprooms)
    (inv : SimInv cfg time s) :
    SimInv cfg (time + 1) (step cfg arr sur time s) := by
  have hrooms := stepPre_rooms_le cfg arr sur time s hcap inv.rooms_le
  have hhist := stepPre_utilizationFrac cfg arr sur time s
  have hql := stepPre_queues_length cfg arr sur time s
  have hqinv := stepPre_queues_inv cfg arr sur time s inv.queues_sorted inv.queues_bounded
  have hlen : (stepPre cfg arr sur time s).utilizationFrac.length = cfg.nDayOprooms + 1 := by
    rw [hhist, inv.hist_len]
  have hidx : (stepPre cfg arr sur time s).operatingRooms.length
      < (stepPre cfg arr sur time s).utilizationFrac.length := by
    rw [hlen]
    exact Nat.lt_succ_of_le hrooms
  unfold step
  split
  · next hlt =>
    refine ⟨?_, ?_, ?_, ?_, ?_, ?_⟩
    · simpa [bumpUtilization] using hrooms
    · simpa [bumpUtilization] using hlen
    · show (bumpUtilization (stepPre cfg arr sur time s)).utilizationFrac.sum = _
      unfold bumpUtilization
      rw [sum_set_getD_succ _ _ hidx, hhist, inv.hist_sum]
      omega
    · simpa [bumpUtilization] using (hql.trans inv.queues_len)
    · intro q hq
      exact (hqinv q (by simpa [bumpUtilization] using hq)).1
    · intro q hq
      exact (hqinv q (by simpa [bumpUtilization] using hq)).2
  · next hge =>
    refine ⟨hrooms, hlen, ?_, hql.trans inv.queues_len,
      fun q hq => (hqinv q hq).1, fun q hq => (hqinv q hq).2⟩
    rw [hhist, inv.hist_sum]
    omega

theorem inv_simAt (cfg : SimConfig) (arr sur : Nat → Nat → Nat)
    (hcap : cfg.nNightOprooms ≤ cfg.nDayOprooms) (t : Nat) :
    SimInv cfg t (simAt cfg arr sur t) := by
  induction t with
  | zero =>
    refine ⟨?_, ?_, ?_, ?_, ?_, ?_⟩
    · simp [simAt, initState]
    · simp [simAt, initState]
    · simp [simAt, initState]
    · simp [simAt, initState]
    · intro q hq
      have hqe : q = [] := List.eq_of_mem_replicate (by simpa [simAt, initState] using hq)
      rw [hqe]
      exact List.sorted_nil
    · intro q hq
      have hqe : q = [] := List.eq_of_mem_replicate (by simpa [simAt, initState] using hq)
      rw [hqe]
      simp
  | succ n ih => exact inv_step cfg arr sur n _ hcap ih

theorem checkItems_ok_iff (l : List ℚ) :
    checkItems l = Except.ok () ↔ ∀ x ∈ l, 0 ≤ x := by
  induction l with
  | nil => simp [checkItems]
  | cons x xs ih =>
    unfold checkItems
    by_cases hx : x < 0
    · rw [if_pos hx]
      constructor
      · intro h; cases h
      · intro h; exact absurd (h x (by simp)) (not_le.mpr hx)
    · rw [if_neg hx]
      rw [ih]
      constructor
      · intro h y hy
        rcases (by simpa using hy : y = x ∨ y ∈ xs) with h1 | h1
        · rw [h1]; exact le_of_not_lt hx
        · exact h y h1
      · intro h y hy
        exact h y (by simp [hy])

theorem checkDistParams_ok_iff (L : List (List ℚ)) :
    checkDistParams L = Except.ok () ↔ DistOk L := by
  induction L with
  | nil => simp [checkDistParams, DistOk]
  | cons e rest ih =>
    unfold checkDistParams
    by_cases hlen : e.length ≠ 3
    · rw [if_pos hlen]
      constructor
      · intro h; cases h
      · intro h; exact absurd (h e (by simp)).1 hlen
    · rw [if_neg hlen]
      cases hi : checkItems e with
      | error err =>
        constructor
        · intro h; cases h
        · intro h
          have := (checkItems_ok_iff e).mpr (h e (by simp)).2
          rw [this] at hi
          cases hi
      | ok u =>
        cases u
        rw [ih]
        constructor
        · intro h
          intro e2 he2
          rcases (by simpa using he2 : e2 = e ∨ e2 ∈ rest) with h1 | h1
          · rw [h1]
            exact ⟨by omega, (checkItems_ok_iff e).mp hi⟩
          · exact h e2 h1
        · intro h e2 he2
          exact h e2 (by simp [he2])

theorem validate_ok_iff (p : ModelParams) :
    validate p = Except.ok () ↔ Conforming p := by
  unfold validate Conforming
  by_cases h1 : p.nDayOprooms ≤ 0
  · rw [if_pos h1]
    constructor
    · intro h; cases h
    · intro hc; exact absurd hc.1 (by omega)
  · rw [if_neg h1]
    cases hd : checkDistParams p.distributionParameters with
    | error err =>
      constructor
      · intro h; cases h
      · intro hc
        have := (checkDistParams_ok_iff _).mpr hc.2.1
        rw [this] at hd
        cases hd
    | ok u =>
      cases u
      have hDist : DistOk p.distributionParameters := (checkDistParams_ok_iff _).mp hd
      split_ifs with h2 h3 h4 h5 h6 h7
      · constructor
        · intro h; cases h
        · intro hc; exact absurd hc.2.2.1 (by omega)
      · constructor
        · intro h; cases h
        · intro hc; exact absurd hc.2.2.2.1 (by omega)
      · constructor
        · intro h; cases h
        · intro hc; exact absurd hc.2.2.2.2.1 (not_le.mpr h4)
      · constructor
        · intro h; cases h
        · intro hc; exact absurd hc.2.2.2.2.2.1 (not_le.mpr h5)
      · constructor
        · intro h; cases h
        · intro hc; exact absurd hc.2.2.2.2.2.2.1 (not_le.mpr h6)
      · constructor
        · intro h; cases h
        · intro hc; exact absurd hc.2.2.2.2.2.2.2 (not_le.mpr h7)
      · constructor
        · intro _
          exact ⟨by omega, hDist, by omega, by omega, le_of_not_lt h4,
            le_of_not_lt h5, le_of_not_lt h6, le_of_not_lt h7⟩
        · intro _; rfl
theorem simState_ext (s1 s2 : SimState)
    (h1 : s1.operatingRooms = s2.operatingRooms) (h2 : s1.queues = s2.queues)
    (h3 : s1.utilizationFrac = s2.utilizationFrac) (h4 : s1.results = s2.results) :
    s1 = s2 := by
  cases s1
  cases s2
  simp only at h1 h2 h3 h4
  rw [h1, h2, h3, h4]

/-!
Theorems settling the claims.
-/

/-- C1: the claim says a day-only class (ordinal at or above
`min_dayonly_class`) is never admitted while `is_day(time)` is false.  The
code contradicts it: with `min_dayonly_class = 0` (class 0 day-only), a
patient queued at the night tick 0 is admitted at that same night tick — the
admission loop never reads `min_dayonly_class`, although the docstring
documents it as "the lowest class that only enters surgery during the day". -/
theorem dayonly_class_admitted_at_night :
    cfgC1.minDayonlyClass ≤ 0
    ∧ isDay cfgC1.nightLength 0 = false
    ∧ (simAt cfgC1 arrC1 surC1 1).operatingRooms.length = 1
    ∧ (simAt cfgC1 arrC1 surC1 1).queues.getD 0 [] = [] := by
  with_unfolding_all decide

/-- Helper for the C2 counterexample: from tick 2 to tick 1440 nothing
changes in the `cfgC2` run (no arrivals, the queue is empty, the single
occupied room is not released before minute 20001, and the warm-up threshold
is far away). -/
theorem stepC2_fix (t : Nat) (h2 : 2 ≤ t) (h3 : t ≤ 1440) :
    step cfgC2 arrC2 surC2 t sFixC2 = sFixC2 := by
  have ht1 : arrC2 t 0 = 0 := by
    unfold arrC2
    rw [if_neg (by omega)]
  have ht2 : (20001 : Nat) ≠ t := by omega
  have ht3 : ¬ ((2000000 : Nat) < t) := by omega
  unfold step stepPre
  simp only [cfgC2, sFixC2]
  simp [enqueueAux, ht1, List.filter_cons, ht2, admitClasses, processClass, ht3]
  rw [show List.range 1 = [0] from rfl, List.foldl_cons, List.foldl_nil]
  simp [processClass]

/-- Helper for the C2 counterexample: the run state is `sFixC2` at every tick
from 2 through 1441. -/
theorem simAtC2_fix (t : Nat) (h2 : 2 ≤ t) (h3 : t ≤ 1441) :
    simAt cfgC2 arrC2 surC2 t = sFixC2 := by
  induction t with
  | zero => omega
  | succ n ih =>
    rcases Nat.lt_or_ge n 2 with hn | hn
    · have hn1 : n = 1 := by omega
      subst hn1
      refine simState_ext _ _ ?_ ?_ ?_ ?_ <;> with_unfolding_all decide
    · show step cfgC2 arrC2 surC2 n (simAt cfgC2 arrC2 surC2 n) = sFixC2
      rw [ih hn (by omega)]
      exact stepC2_fix n hn (by omega)

/-- C2 (counterexample): at tick 1440 — the first night tick after a full day
— the room occupied since tick 1 is still busy, so the occupancy (1) exceeds
the tick's capacity, which is the night capacity 0; tick 1440 lies within the
run (`experiment_length + converge_time` ticks).  The claim that occupancy
never exceeds `capacity_at(time)` is false on the code. -/
theorem occupancy_exceeds_night_capacity :
    nOprooms cfgC2 1440 = cfgC2.nNightOprooms
    ∧ nOprooms cfgC2 1440 < (simAt cfgC2 arrC2 surC2 1441).operatingRooms.length
    ∧ 1441 ≤ cfgC2.experimentLength + cfgC2.convergeTime := by
  have hfix := simAtC2_fix 1441 (by omega) (by omega)
  rw [hfix]
  refine ⟨by with_unfolding_all decide, by with_unfolding_all decide, by decide⟩

/-- C2 (amended): for valid capacities (`night ≤ day`) the occupancy is
bounded by the day capacity at every tick of every run; the per-tick bound
`capacity_at(time)` holds at admission time only, and can be exceeded during
night ticks by servers admitted in the preceding day window. -/
theorem occupied_le_day_capacity (cfg : SimConfig) (arr sur : Nat → Nat → Nat)
    (hcap : cfg.nNightOprooms ≤ cfg.nDayOprooms) (t : Nat) :
    (simAt cfg arr sur t).operatingRooms.length ≤ cfg.nDayOprooms :=
  (inv_simAt cfg arr sur hcap t).rooms_le

/-- C2 (witness): the amended bound at a concrete run and tick. -/
theorem occupied_le_day_capacity_witness :
    (simAt cfgC1 arrC1 surC1 1).operatingRooms.length ≤ cfgC1.nDayOprooms :=
  occupied_le_day_capacity cfgC1 arrC1 surC1 (by decide) 1

/-- C3: the utilization table divides each bucket by
`experiment_length - converge_time` although the run has
`experiment_length + converge_time` ticks, of which `experiment_length`
(minus one, see C5) are past warm-up.  With `converge_time = 2`,
`experiment_length = 4` and no arrivals, the whole run sits at occupancy 0
for 3 sampled ticks and the reported "fraction" is `3/2` — not bucket
divided by `total_ticks - warmup_ticks` as the claim states. -/
theorem utilization_divisor_mismatch :
    utilizationResults cfgC3 (runSim cfgC3 arrNone surZero).utilizationFrac
      = [3 / 2, 0]
    ∧ (utilizationResults cfgC3 (runSim cfgC3 arrNone surZero).utilizationFrac).getD 0 0
        ≠ ((runSim cfgC3 arrNone surZero).utilizationFrac.getD 0 0 : ℚ)
          / (((cfgC3.experimentLength + cfgC3.convergeTime : Nat) : ℚ)
              - (cfgC3.convergeTime : ℚ)) := by
  with_unfolding_all decide

/-- C4 (counterexample): with an 8-hour night, minute 480 of the day does not
satisfy `t mod 1440 < night_length * 60`, yet the code assigns it the night
capacity — the code's boundary is inclusive (`>` for day), the claim's is
exclusive. -/
theorem capacity_boundary_strict_cex :
    nOprooms cfgC4 480 = cfgC4.nNightOprooms
    ∧ ¬ (((480 % dayToMin : Nat) : ℚ) < cfgC4.nightLength * (hourToMin : ℚ))
    ∧ cfgC4.nNightOprooms ≠ cfgC4.nDayOprooms := by
  with_unfolding_all decide

/-- C4 (amended): the capacity is the night capacity exactly when
`t mod 1440 ≤ night_length * 60` (boundary inclusive), and the same inclusive
boundary decides the `is_day` flag used for day/night tagging. -/
theorem capacity_boundary_inclusive (cfg : SimConfig) (t : Nat) :
    nOprooms cfg t
      = (if ((t % dayToMin : Nat) : ℚ) ≤ cfg.nightLength * (hourToMin : ℚ)
          then cfg.nNightOprooms else cfg.nDayOprooms)
    ∧ (isDay cfg.nightLength t = true
        ↔ ¬ ((t % dayToMin : Nat) : ℚ) ≤ cfg.nightLength * (hourToMin : ℚ)) := by
  constructor
  · unfold nOprooms isDay
    by_cases h : ((t % dayToMin : Nat) : ℚ) ≤ cfg.nightLength * (hourToMin : ℚ)
    · simp [h, not_lt.mpr h]
    · simp [h, not_le.mp h]
  · unfold isDay
    simp [not_le]

/-- C5 (counterexample): the histogram buckets of the `cfgC3` run sum to 3,
not to `experiment_length = 4`: the sampling condition is the strict
`time > converge_time`, so tick `converge_time` itself is never counted. -/
theorem histogram_sum_ne_experiment_length :
    (runSim cfgC3 arrNone surZero).utilizationFrac.sum ≠ cfgC3.experimentLength := by
  with_unfolding_all decide

/-- C5 (amended): for valid capacities the buckets sum to
`(experiment_length + converge_time) - (converge_time + 1)`, i.e. to
`experiment_length - 1` — one less than the claim says, because the strict
comparison skips tick `converge_time`. -/
theorem histogram_sum_eq (cfg : SimConfig) (arr sur : Nat → Nat → Nat)
    (hcap : cfg.nNightOprooms ≤ cfg.nDayOprooms) :
    (runSim cfg arr sur).utilizationFrac.sum
      = (cfg.experimentLength + cfg.convergeTime) - (cfg.convergeTime + 1) := by
  unfold runSim
  exact (inv_simAt cfg arr sur hcap _).hist_sum

/-- C5 (witness): the amended sum at a concrete run. -/
theorem histogram_sum_eq_witness :
    (runSim cfgC3 arrNone surZero).utilizationFrac.sum
      = (cfgC3.experimentLength + cfgC3.convergeTime) - (cfgC3.convergeTime + 1) :=
  histogram_sum_eq cfgC3 arrNone surZero (by decide)

/-- C6: within one tick the admission loop handles the classes of
`range n_classes` in ascending ordinal order: the state after classes
`0..j` is `processClass` applied on top of the state after classes `0..j-1`;
each class loses at most one queued patient per tick; and class `j` is
admitted exactly when its queue is non-empty and the occupancy left by the
higher-priority classes (`range j`) is still below the tick's capacity. -/
theorem admission_priority_discipline (cfg : SimConfig) (sur : Nat → Nat → Nat)
    (time n : Nat) (s : SimState) (j : Nat) :
    admitClasses cfg sur time n (List.range (j + 1)) s
      = processClass cfg sur time n (admitClasses cfg sur time n (List.range j) s) j
    ∧ (s.queues.getD j []).length
        ≤ ((admitClasses cfg sur time n (List.range cfg.nClasses) s).queues.getD j []).length + 1
    ∧ ((processClass cfg sur time n (admitClasses cfg sur time n (List.range j) s) j).queues.getD j []
          ≠ (admitClasses cfg sur time n (List.range j) s).queues.getD j []
        ↔ (admitClasses cfg sur time n (List.range j) s).queues.getD j [] ≠ []
          ∧ (admitClasses cfg sur time n (List.range j) s).operatingRooms.length < n) := by
  refine ⟨?_, ?_, ?_⟩
  · rw [List.range_succ, admitClasses_append]
    rfl
  · exact admitClasses_queue_len_ge cfg sur time n _ s j
      (List.nodup_iff_count_le_one.mp (List.nodup_range _) j)
  · exact processClass_queue_change_iff cfg sur time n _ j

/-- C7: when class `j` is admitted at tick `time` (free room, non-empty queue
with head `a`), a result row is appended exactly when the arrival time `a` is
past the warm-up threshold, and the row is
`(j, a - converge_time, is_day(a), time - a, surgery)` — the day/night tag is
computed from the arrival time `a`, not from the admission time. -/
theorem outcome_record_emission (cfg : SimConfig) (sur : Nat → Nat → Nat)
    (time n : Nat) (s : SimState) (j a : Nat) (q : List Nat)
    (hq : s.queues.getD j [] = q) (ha : q.headD 0 = a) (hne : q ≠ [])
    (hfree : s.operatingRooms.length < n) :
    (processClass cfg sur time n s j).results
      = s.results
        ++ (if cfg.convergeTime < a then
              [{ cls := j
                 arrival := a - cfg.convergeTime
                 dayTag := isDay cfg.nightLength a
                 wait := time - a
                 surgery := sur time j }]
            else []) := by
  subst ha
  simp only [processClass, hq]
  rw [if_pos ⟨hfree, hne⟩]
  by_cases hc : cfg.convergeTime < q.headD 0
  · rw [if_pos hc, if_pos hc]
  · rw [if_neg hc, if_neg hc, List.append_nil]

/-- C7 (witness): a concrete admission — the patient arrived at minute 400 (a
night minute) and is admitted at minute 600 (a day minute); the emitted row
is tagged with the night status of the arrival. -/
theorem outcome_record_emission_witness :
    (processClass cfgC7 surC7 600 1 sC7 0).results
      = sC7.results
        ++ (if cfgC7.convergeTime < 400 then
              [{ cls := 0
                 arrival := 400 - cfgC7.convergeTime
                 dayTag := isDay cfgC7.nightLength 400
                 wait := 600 - 400
                 surgery := surC7 600 0 }]
            else []) :=
  outcome_record_emission cfgC7 surC7 600 1 sC7 0 400 [400] rfl rfl
    (by decide) (by decide)

/-- C8: in every reachable state of a run with valid capacities, every class
queue is sorted non-decreasingly; on a non-empty queue the source's
remove-by-value step (`removeFirst` of the head) removes exactly the head
position — it equals pop-front even with duplicate timestamps — and the head
is a minimum of the queue. -/
theorem queue_sorted_pop_head (cfg : SimConfig) (arr sur : Nat → Nat → Nat)
    (hcap : cfg.nNightOprooms ≤ cfg.nDayOprooms) (t j : Nat) (q : List Nat)
    (hq : (simAt cfg arr sur t).queues.getD j [] = q) :
    List.Sorted (· ≤ ·) q
    ∧ (q ≠ [] → removeFirst (q.headD 0) q = q.tail ∧ ∀ x ∈ q, q.headD 0 ≤ x) := by
  have hsorted : List.Sorted (· ≤ ·) q := by
    rcases Nat.lt_or_ge j (simAt cfg arr sur t).queues.length with hlt | hge
    · have hmem := getD_mem_of_lt (simAt cfg arr sur t).queues j [] hlt
      rw [hq] at hmem
      exact (inv_simAt cfg arr sur hcap t).queues_sorted q hmem
    · rw [getD_eq_default_of_le _ _ _ hge] at hq
      rw [← hq]
      exact List.sorted_nil
  refine ⟨hsorted, fun hne => ⟨removeFirst_headD q hne, ?_⟩⟩
  cases q with
  | nil => exact absurd rfl hne
  | cons b tl =>
    intro x hx
    rcases (by simpa using hx : x = b ∨ x ∈ tl) with h1 | h1
    · rw [h1]; simp
    · simpa using (List.sorted_cons.mp hsorted).1 x h1

/-- C8 (witness): the queue of class 0 after two ticks of the `cfgC8` run is
`[0, 1]`; it is sorted, removing the head by value removes position 0, and
the head is the minimum. -/
theorem queue_sorted_pop_head_witness :
    List.Sorted (· ≤ ·) ([0, 1] : List Nat)
    ∧ (([0, 1] : List Nat) ≠ [] →
        removeFirst (([0, 1] : List Nat).headD 0) [0, 1] = ([0, 1] : List Nat).tail
        ∧ ∀ x ∈ ([0, 1] : List Nat), ([0, 1] : List Nat).headD 0 ≤ x) :=
  queue_sorted_pop_head cfgC8 arrC8 surZero (by decide) 2 0 [0, 1]
    (by with_unfolding_all decide)

/-- C9: `model_ors` fails with a typed error exactly on non-conforming
configurations (non-positive day capacity, night capacity negative or above
the day capacity, a distribution entry that is not a non-negative triple, or
a negative `night_length`, `converge_time`, `experiment_length` or
`cleaning_time`), and every error it can return is already returned by the
typechecking block alone — before any simulation state exists, never
mid-run; a conforming configuration raises none.  (Python's dynamic
`TypeError` branches for wrongly-typed inputs cannot arise in the typed
embedding.) -/
theorem configuration_errors_eager (p : ModelParams) (arr sur : Nat → Nat → Nat) :
    ((∃ e, model_ors p arr sur = Except.error e) ↔ ¬ Conforming p)
    ∧ (∀ e, model_ors p arr sur = Except.error e → validate p = Except.error e) := by
  cases hv : validate p with
  | error e =>
    have hm : model_ors p arr sur = Except.error e := by
      simp [model_ors, hv]
    have hnc : ¬ Conforming p := by
      intro hc
      rw [(validate_ok_iff p).mpr hc] at hv
      cases hv
    refine ⟨⟨fun _ => hnc, fun _ => ⟨e, hm⟩⟩, ?_⟩
    intro e2 he2
    rw [hm] at he2
    injection he2 with he
    rw [he]
  | ok u =>
    cases u
    have hm : model_ors p arr sur
        = Except.ok ((runSim (toSimConfig p) arr sur).results,
            utilizationResults (toSimConfig p) (runSim (toSimConfig p) arr sur).utilizationFrac) := by
      simp [model_ors, hv]
    constructor
    · constructor
      · rintro ⟨e, he⟩
        rw [hm] at he
        cases he
      · intro hnc
        exact absurd ((validate_ok_iff p).mp hv) hnc
    · intro e2 he2
      rw [hm] at he2
      cases he2

/-- C10: for valid capacities, at the utilization-sampling point of every
tick the occupancy indexes strictly inside the histogram (whose size is
`n_day_oprooms + 1`), so `utilization_frac[len(operating_rooms)] += 1` can
never go out of bounds. -/
theorem utilization_index_in_bounds (cfg : SimConfig) (arr sur : Nat → Nat → Nat)
    (hcap : cfg.nNightOprooms ≤ cfg.nDayOprooms) (t : Nat) :
    (stepPre cfg arr sur t (simAt cfg arr sur t)).operatingRooms.length
      < (stepPre cfg arr sur t (simAt cfg arr sur t)).utilizationFrac.length := by
  have inv := inv_simAt cfg arr sur hcap t
  have h1 := stepPre_utilizationFrac cfg arr sur t (simAt cfg arr sur t)
  rw [h1, inv.hist_len]
  exact Nat.lt_succ_of_le (stepPre_rooms_le cfg arr sur t _ hcap inv.rooms_le)

/-- C10 (witness): the in-bounds property at a concrete run and tick. -/
theorem utilization_index_in_bounds_witness :
    (stepPre cfgC1 arrC1 surC1 0 (simAt cfgC1 arrC1 surC1 0)).operatingRooms.length
      < (stepPre cfgC1 arrC1 surC1 0 (simAt cfgC1 arrC1 surC1 0)).utilizationFrac.length :=
  utilization_index_in_bounds cfgC1 arrC1 surC1 (by decide) 0

end ORWait
